import Mathlib

/-!
# Verification of the 61-game engine (packages/shared/src/index.ts)

A shallow embedding of the card-game engine of the 61-game repository:
the card model, trick resolution, lead policy, punishment queue, match
initialisation, draw replenishment and full-hand simulation, followed by
theorems settling the specification claims.

JavaScript numbers are modelled as `Nat`: every quantity the engine
computes (LCG states, hashes, indices, weights, points) is a nonnegative
integer below 2^53, where IEEE double arithmetic is exact, so `Nat`
arithmetic with explicit `% 2^32` reductions is a faithful model.
Seed strings are modelled as their list of UTF-16 code units, which is
what `charCodeAt` iterates over.
-/

/-- The four suits (`type Suit`). -/
inductive Suit where
  | spades | hearts | diamonds | clubs
deriving DecidableEq, Repr

/-- The nine ranks (`type Rank`). `r7` … `r3` stand for the string
ranks `'7'` … `'3'`. -/
inductive Rank where
  | A | K | Q | J | r7 | r6 | r5 | r4 | r3
deriving DecidableEq, Repr

/-- A playing card (`interface Card`). -/
structure Card where
  suit : Suit
  rank : Rank
deriving DecidableEq, Repr

/-- Points per rank (`POINTS` record). -/
def POINTS : Rank → Nat
  | .A => 11
  | .K => 4
  | .Q => 2
  | .J => 3
  | .r7 => 10
  | .r6 => 0
  | .r5 => 0
  | .r4 => 0
  | .r3 => 0

/-- Suits in display order (`SUITS`). -/
def SUITS : List Suit := [.spades, .hearts, .diamonds, .clubs]

/-- Ranks in strength order, highest first: the `RANK_ORDER` constant as
it stands in `src/packages/shared/src/index.ts` line 28. -/
def RANK_ORDER : List Rank := [.A, .K, .Q, .J, .r7, .r6, .r5, .r4, .r3]

/-- The updated `RANK_ORDER` constant as it stands in
`src/unnamed/part_000` ("New ranking order according to updated rules:
7 outranks K, Q, J"). -/
def RANK_ORDER_updated : List Rank := [.A, .r7, .K, .Q, .J, .r6, .r5, .r4, .r3]

/-- `RANK_ORDER.indexOf(rank)` of `cardWeight`; parameterised by the
order list so both shipped variants can be compared. -/
def rankIndex (order : List Rank) (r : Rank) : Nat := order.indexOf r

/-- The rank strength `(RANK_ORDER.length - 1) - idx` computed inside
`cardWeight` (A = 8 highest, 3 = 0 lowest). -/
def rankStrength (order : List Rank) (r : Rank) : Nat :=
  (order.length - 1) - rankIndex order r

/-- `cardWeight(card, trump, led)`: comparison weight of a card given the
trump suit and the led suit (`null` led is `none`).  Uses the
`RANK_ORDER` of `src/packages/shared/src/index.ts`. -/
def cardWeight (card : Card) (trump : Suit) (led : Option Suit) : Nat :=
  let strength := rankStrength RANK_ORDER card.rank
  if card.suit = trump then 200 + strength
  else if led = some card.suit then 100 + strength
  else strength

/-- One play inside a trick (`interface TrickPlay`). -/
structure TrickPlay where
  player : Nat
  card : Card
deriving DecidableEq, Repr

/-- Result of a resolved trick (`interface TrickResult`). -/
structure TrickResult where
  winner : Option Nat
  points : Nat
  tie : Bool
deriving DecidableEq, Repr

/-- `resolveTrick(plays, trump)`.  The `throw` on an empty plays list is
modelled as `none`; otherwise the result record is returned.  The led
suit is the suit of the first play, weights follow `cardWeight`, the
maximum weight is `Math.max(...weights)`, `indices` collects the indices
achieving it, and points are the sum of the `POINTS` of every play. -/
def resolveTrick (plays : List TrickPlay) (trump : Suit) : Option TrickResult :=
  match plays with
  | [] => none
  | p0 :: _ =>
    let led := p0.card.suit
    let weights := plays.map (fun p => cardWeight p.card trump (some led))
    let maxWeight := weights.foldl Nat.max 0
    let indices := (List.range plays.length).filter
      (fun i => weights.getD i 0 == maxWeight)
    let points := plays.foldl (fun acc p => acc + POINTS p.card.rank) 0
    if indices.length > 1 then
      some { winner := none, points := points, tie := true }
    else
      some { winner := some ((plays.getD (indices.headD 0) p0).player),
             points := points, tie := false }

/-- `teamOfPlayer(player)`: 0 = Team A, 1 = Team B. -/
def teamOfPlayer (player : Nat) : Nat := player % 2

/-- `nextLead(currentLead, winner)`: the lead only changes when the
winning team changes; a tie (`winner = none`) keeps the lead. -/
def nextLead (currentLead : Nat) (winner : Option Nat) : Nat :=
  match winner with
  | none => currentLead
  | some w =>
    if teamOfPlayer w = teamOfPlayer currentLead then currentLead else w

/-- The punishment queue controller (`class PunishmentQueue`): a visible
queue of labels and a cursor into the fixed sequence. -/
structure PunishmentQueue where
  queue : List String
  index : Nat
deriving DecidableEq, Repr

/-- The static punishment sequence: two 10s, two 9s, two 8s, two 2s. -/
def PunishmentQueue.sequence : List String :=
  ["10", "10", "9", "9", "8", "8", "2", "2"]

/-- A freshly constructed queue (`new PunishmentQueue()`). -/
def PunishmentQueue.init : PunishmentQueue := { queue := [], index := 0 }

/-- `PunishmentQueue.submit()`: append the label at the cursor, clear the
whole queue if that label is `"2"`, and advance the cursor modulo the
sequence length. -/
def PunishmentQueue.submit (q : PunishmentQueue) : PunishmentQueue :=
  let card := PunishmentQueue.sequence.getD q.index ""
  let queue1 := q.queue ++ [card]
  let queue2 := if card = "2" then [] else queue1
  { queue := queue2, index := (q.index + 1) % PunishmentQueue.sequence.length }

/-- `n` consecutive `submit()` calls. -/
def PunishmentQueue.submitN (n : Nat) (q : PunishmentQueue) : PunishmentQueue :=
  match n with
  | 0 => q
  | n + 1 => PunishmentQueue.submitN n q.submit

example : resolveTrick [] Suit.spades = none := by decide

-- the first test of resolveTrick.test.ts: A hearts wins, no trumps
example :
    resolveTrick
      [⟨0, ⟨.hearts, .r6⟩⟩, ⟨1, ⟨.hearts, .r5⟩⟩, ⟨2, ⟨.hearts, .A⟩⟩,
       ⟨3, ⟨.hearts, .r3⟩⟩, ⟨4, ⟨.hearts, .K⟩⟩, ⟨5, ⟨.hearts, .r7⟩⟩]
      Suit.spades =
    some { winner := some 2, points := 25, tie := false } := by decide

/-- One step of the 32-bit LCG inside `createRng` (Numerical Recipes
constants).  The closure's mutable `state` is threaded explicitly; all
intermediate values stay below 2^53, where doubles are exact. -/
def lcgNext (state : Nat) : Nat := (1664525 * state + 1013904223) % 4294967296

/-- `Math.floor(rng() * (n))` for the freshly advanced LCG `state` and a
small multiplier `n`: exact double arithmetic makes this the integer
`state * n / 2^32`. -/
def rngScale (state n : Nat) : Nat := state * n / 4294967296

/-- `stringToSeed(str)`: FNV-1a style hash over the UTF-16 code units of
the seed (`charCodeAt`), with `Math.imul` modelled as multiplication
modulo 2^32 (bit pattern of the signed 32-bit product). -/
def stringToSeed (str : List Nat) : Nat :=
  str.foldl (fun h c => ((h ^^^ c) * 16777619) % 4294967296) 2166136261

/-- The unshuffled 36-card deck built by the nested suit/rank loops of
`createShuffledDeck`. -/
def baseDeck : List Card :=
  SUITS.flatMap (fun suit => RANK_ORDER.map (fun rank => ⟨suit, rank⟩))

/-- `[deck[i], deck[j]] = [deck[j], deck[i]]`: swap two positions of a
list (no-op when either index is out of range). -/
def swapL (l : List Card) (i j : Nat) : List Card :=
  match l[i]?, l[j]? with
  | some a, some b => (l.set i b).set j a
  | _, _ => l

/-- The Fisher-Yates loop of `createShuffledDeck`: `i` counts down from
`deck.length - 1` to 1, each step advances the RNG and swaps index `i`
with `j = floor(rng() * (i + 1))`. -/
def shuffleAux : Nat → Nat → List Card → List Card
  | 0, _state, deck => deck
  | i + 1, state, deck =>
    let state2 := lcgNext state
    let j := rngScale state2 (i + 2)
    shuffleAux i state2 (swapL deck (i + 1) j)

/-- `createShuffledDeck(rng)` for an RNG whose current LCG state is
`state`. -/
def createShuffledDeck (state : Nat) : List Card :=
  shuffleAux (baseDeck.length - 1) state baseDeck

/-- A log entry (`{ player, card, action }`). -/
structure LogEntry where
  player : Nat
  card : Card
  action : String
deriving DecidableEq, Repr

/-- Full match state (`interface MatchState`).  The optional
`currentTrick` field defaults to the empty list (`undefined ?? []`),
and team scores are the pair `(scores[0], scores[1])`. -/
structure MatchState where
  seed : List Nat
  deck : List Card
  trump : Suit
  leadPlayer : Nat
  hands : List (List Card)
  scores : Nat × Nat
  tiePoints : Nat
  punishment : PunishmentQueue
  log : List LogEntry
  trumpCard : Card
  currentTrick : List TrickPlay
deriving Repr

/-- `scores[team] += amount` for `team < 2`. -/
def addScore (scores : Nat × Nat) (team amount : Nat) : Nat × Nat :=
  if team = 0 then (scores.1 + amount, scores.2) else (scores.1, scores.2 + amount)

/-- The seat order `(start + offset) % 6` for `offset = 0..5`, used both
by the trick loop of `playHand` (from the lead) and by `drawAfterTrick`
(from the winner). -/
def seatOrder (start : Nat) : List Nat :=
  (List.range 6).map (fun i => (start + i) % 6)

/-- The inner `while` of `drawAfterTrick`: draw cards off the front of
the pile into `hand` until the hand holds 3 cards or the pile is empty. -/
def fillHand (hand deck : List Card) : List Card × List Card :=
  match deck with
  | [] => (hand, [])
  | c :: rest =>
    if hand.length < 3 then fillHand (hand ++ [c]) rest
    else (hand, c :: rest)

/-- One player's turn to draw: refill the hand at `player` from the
front of the pile. -/
def drawStep (acc : List (List Card) × List Card) (player : Nat) :
    List (List Card) × List Card :=
  let r := fillHand (acc.1.getD player []) acc.2
  (acc.1.set player r.1, r.2)

/-- `drawAfterTrick(state, winner)`: winner first, then clockwise, each
player refills to 3 cards (or until the pile empties) before the next
player draws. -/
def drawAfterTrick (s : MatchState) (winner : Nat) : MatchState :=
  let r := (seatOrder winner).foldl drawStep (s.hands, s.deck)
  { s with hands := r.1, deck := r.2 }

/-- One seat's turn inside the trick loop of `playHand`: play the first
card of the hand at `player`, or skip when that hand is empty. -/
def playStep (acc : List (List Card) × List TrickPlay) (player : Nat) :
    List (List Card) × List TrickPlay :=
  match acc.1.getD player [] with
  | [] => acc
  | c :: rest => (acc.1.set player rest, acc.2 ++ [⟨player, c⟩])

/-- The play-collection loop of one `playHand` trick: every seat from
the lead in clockwise order plays the first card of its hand (seats with
empty hands are skipped). -/
def collectPlays (lead : Nat) (hands : List (List Card)) :
    List (List Card) × List TrickPlay :=
  (seatOrder lead).foldl playStep (hands, [])

/-- The scoring part of one `playHand` loop iteration (the state has
already had the trick's cards removed from hands and the plays logged):
on a tie the points accumulate into `tiePoints` and the lead is kept; on
a clear win the winning team banks the points plus carried tie points,
the lead is updated, and hands are replenished when the pile is
non-empty. -/
def applyTrickResult (s1 : MatchState) (res : Option TrickResult) :
    MatchState :=
  match res with
  | none => s1
  | some result =>
    if result.tie then
      { s1 with tiePoints := s1.tiePoints + result.points }
    else
      match result.winner with
      | none => s1
      | some w =>
        let s2 := { s1 with
          scores := addScore s1.scores (teamOfPlayer w)
            (result.points + s1.tiePoints),
          tiePoints := 0,
          leadPlayer := nextLead s1.leadPlayer (some w) }
        if s2.deck.length > 0 then drawAfterTrick s2 w else s2

/-- One iteration of the `playHand` while-loop: collect the trick's
plays (removing them from hands), log them, resolve, and apply the
result. -/
def trickStep (s : MatchState) : MatchState :=
  let r := collectPlays s.leadPlayer s.hands
  let s1 := { s with hands := r.1,
                     log := s.log ++
                       r.2.map (fun p => ⟨p.player, p.card, "play"⟩) }
  applyTrickResult s1 (resolveTrick r.2 s.trump)

/-- Total number of cards held in hands (`cardsRemaining`). -/
def handsCount (hands : List (List Card)) : Nat :=
  (hands.map List.length).sum

/-- The `playHand` while-loop with explicit fuel: run `trickStep` while
some hand is non-empty and fuel remains. -/
def playHandAux (fuel : Nat) (s : MatchState) : MatchState :=
  match fuel with
  | 0 => s
  | n + 1 =>
    if handsCount s.hands = 0 then s else playHandAux n (trickStep s)

/-- `playHand(state)`: play tricks until all hands are empty.  The fuel
`handsCount + deck length` dominates the loop's variant (the card count
in hands plus pile strictly decreases each iteration), which the
termination theorem below proves sufficient. -/
def playHand (s : MatchState) : MatchState :=
  playHandAux (handsCount s.hands + s.deck.length) s

/-- The 18-card deal of `initMatch`: three rounds, each giving every
seat 0..5 the next card off the front of the deck. -/
def dealStep (acc : List (List Card) × List Card) (p : Nat) :
    List (List Card) × List Card :=
  match acc.2 with
  | [] => acc
  | c :: rest => (acc.1.set p (acc.1.getD p [] ++ [c]), rest)

/-- `initMatch(seed)`: shuffle, deal 3 cards to each of 6 players
player-major, reveal the pile's top card as trump, move it to the bottom
of the pile, and start with lead 0, zero scores and an empty log. -/
def initMatch (seed : List Nat) : MatchState :=
  let deck0 := createShuffledDeck (stringToSeed seed)
  let dealt := (List.range 3).foldl
    (fun acc _ => (List.range 6).foldl dealStep acc)
    (List.replicate 6 ([] : List Card), deck0)
  let hands := dealt.1
  let deck1 := dealt.2
  let trumpCard := deck1.headD ⟨.spades, .A⟩
  let trump := trumpCard.suit
  let deck2 := deck1.tail ++ [trumpCard]
  { seed := seed, deck := deck2, trump := trump, leadPlayer := 0,
    hands := hands, scores := (0, 0), tiePoints := 0,
    punishment := PunishmentQueue.init, log := [],
    trumpCard := trumpCard, currentTrick := [] }

/-- The predicate of `playCard`'s `findIndex`: same rank and same suit. -/
def cardMatches (c card : Card) : Bool :=
  c.rank == card.rank && c.suit == card.suit

/-- `playCard(state, player, card)`.  The two `throw`s are modelled by
returning the untouched input state paired with `some` error message;
in the source both checks precede every mutation, so the state really is
unmodified on failure.  On success the mutated state is returned with
`none`.  When the appended play completes a 6-card trick, the trick is
resolved, scores / tie points / lead are updated and hands are
replenished when the pile is non-empty. -/
def playCard (s : MatchState) (player : Nat) (card : Card) :
    MatchState × Option String :=
  let trick := s.currentTrick
  let turnPlayer := (s.leadPlayer + trick.length) % 6
  if player ≠ turnPlayer then
    (s, some "not the player's turn")
  else
    let hand := s.hands.getD player []
    let idx := hand.findIdx (fun c => cardMatches c card)
    if idx ≥ hand.length then
      (s, some "Player does not have that card")
    else
      let hand2 := hand.eraseIdx idx
      let trick2 := trick ++ [⟨player, card⟩]
      let s1 := { s with hands := s.hands.set player hand2,
                         currentTrick := trick2,
                         log := s.log ++ [⟨player, card, "play"⟩] }
      if trick2.length = 6 then
        (applyTrickResult { s1 with currentTrick := [] }
          (resolveTrick trick2 s.trump), none)
      else
        (s1, none)

/-! ## Concrete instances used by witnesses and counterexamples -/

/-- The UTF-16 code units of the seed string "demo-0", as used by the
repository's own simulation runner. -/
def demoSeed : List Nat := [100, 101, 109, 111, 45, 48]

/-- A small concrete state: one card in one hand, one card in the pile. -/
def tinyState : MatchState :=
  { seed := [], deck := [⟨.spades, .A⟩], trump := .spades, leadPlayer := 0,
    hands := [[⟨.hearts, .K⟩], [], [], [], [], []], scores := (0, 0),
    tiePoints := 0, punishment := PunishmentQueue.init, log := [],
    trumpCard := ⟨.spades, .A⟩, currentTrick := [] }

/-- A concrete replenishment scenario: six two-card hands, winner 3,
six cards in the pile. -/
def drawDemoState : MatchState :=
  { seed := [], trump := .spades, leadPlayer := 0,
    deck := [⟨.spades, .A⟩, ⟨.spades, .K⟩, ⟨.spades, .Q⟩,
             ⟨.spades, .J⟩, ⟨.spades, .r7⟩, ⟨.spades, .r6⟩],
    hands := [[⟨.hearts, .A⟩, ⟨.hearts, .K⟩], [⟨.hearts, .Q⟩, ⟨.hearts, .J⟩],
              [⟨.hearts, .r7⟩, ⟨.hearts, .r6⟩], [⟨.hearts, .r5⟩, ⟨.hearts, .r4⟩],
              [⟨.hearts, .r3⟩, ⟨.diamonds, .A⟩], [⟨.diamonds, .K⟩, ⟨.diamonds, .Q⟩]],
    scores := (0, 0), tiePoints := 0, punishment := PunishmentQueue.init,
    log := [], trumpCard := ⟨.spades, .A⟩, currentTrick := [] }

/-- The weight of a play exactly as claim C4 words it: 200 plus rank
strength for trump, 100 plus rank strength when matching the first
play's suit, bare rank strength otherwise. -/
def cardWeightSpec (trump : Suit) (lead p : TrickPlay) : Nat :=
  if p.card.suit = trump then 200 + rankStrength RANK_ORDER p.card.rank
  else if p.card.suit = lead.card.suit then
    100 + rankStrength RANK_ORDER p.card.rank
  else rankStrength RANK_ORDER p.card.rank

/-- A concrete state whose current trick already holds five plays and
whose player 5 can legally complete it. -/
def fiveTrickState : MatchState :=
  { seed := [], deck := [], trump := .spades, leadPlayer := 0,
    hands := [[], [], [], [], [], [⟨.hearts, .r7⟩]],
    scores := (0, 0), tiePoints := 0, punishment := PunishmentQueue.init,
    log := [], trumpCard := ⟨.spades, .A⟩,
    currentTrick := [⟨0, ⟨.hearts, .r6⟩⟩, ⟨1, ⟨.hearts, .r5⟩⟩,
      ⟨2, ⟨.hearts, .A⟩⟩, ⟨3, ⟨.hearts, .r3⟩⟩, ⟨4, ⟨.hearts, .K⟩⟩] }

/-! ## Generic list lemmas -/

theorem getD_set_self {α : Type} (l : List α) (p : Nat) (x d : α)
    (hp : p < l.length) : (l.set p x).getD p d = x := by
  induction l generalizing p with
  | nil => simp at hp
  | cons a t ih =>
    cases p with
    | zero => simp
    | succ q => simpa using ih q (by simpa using hp)

theorem getD_set_ne {α : Type} (l : List α) (p q : Nat) (x d : α)
    (h : p ≠ q) : (l.set p x).getD q d = l.getD q d := by
  induction l generalizing p q with
  | nil => simp
  | cons a t ih =>
    cases p with
    | zero =>
      cases q with
      | zero => exact absurd rfl h
      | succ m => simp
    | succ m =>
      cases q with
      | zero => simp
      | succ k => simpa using ih m k (by omega)

theorem lt_length_of_getElem?_some {α : Type} {l : List α} {i : Nat} {a : α}
    (h : l[i]? = some a) : i < l.length := by
  induction l generalizing i with
  | nil => simp at h
  | cons b t ih =>
    cases i with
    | zero => simp
    | succ m => simpa using ih (by simpa using h)

theorem getD_of_getElem?_some {α : Type} {l : List α} {i : Nat} {a : α} (d : α)
    (h : l[i]? = some a) : l.getD i d = a := by
  induction l generalizing i with
  | nil => simp at h
  | cons b t ih =>
    cases i with
    | zero => simpa using h
    | succ m => simpa using ih (by simpa using h)

theorem getD_lt_length_eq_getElem {α : Type} (l : List α) (i : Nat) (d : α)
    (h : i < l.length) : l.getD i d = l[i] := by
  induction l generalizing i with
  | nil => simp at h
  | cons b t ih =>
    cases i with
    | zero => simp
    | succ m => simpa using ih m (by simpa using h)

/-- Replacing the element at an in-range position changes a weighted sum
by exactly the weight difference. -/
theorem sum_map_set {α : Type} (f : α → Nat) (l : List α) (p : Nat) (x d : α)
    (hp : p < l.length) :
    ((l.set p x).map f).sum + f (l.getD p d) = (l.map f).sum + f x := by
  induction l generalizing p with
  | nil => simp at hp
  | cons a t ih =>
    cases p with
    | zero => simp; omega
    | succ q =>
      have hq : q < t.length := by simpa using hp
      have e := ih q hq
      simp only [List.set_cons_succ, List.getD_cons_succ, List.map_cons,
        List.sum_cons]
      omega

theorem length_swapL (l : List Card) (i j : Nat) :
    (swapL l i j).length = l.length := by
  unfold swapL
  cases hi : l[i]? with
  | none => rfl
  | some a =>
    cases hj : l[j]? with
    | none => rfl
    | some b => simp [hi, hj]

/-- Swapping two positions preserves any weighted sum. -/
theorem sum_map_swapL (f : Card → Nat) (l : List Card) (i j : Nat) :
    ((swapL l i j).map f).sum = (l.map f).sum := by
  cases hi : l[i]? with
  | none => simp [swapL, hi]
  | some a =>
    cases hj : l[j]? with
    | none => simp [swapL, hi, hj]
    | some b =>
      simp only [swapL, hi, hj]
      have hi' : i < l.length := lt_length_of_getElem?_some hi
      have hj' : j < l.length := lt_length_of_getElem?_some hj
      have e1 := sum_map_set f l i b a hi'
      have e2 := sum_map_set f (l.set i b) j a a
        (by simpa [List.length_set] using hj')
      have hgi : l.getD i a = a := getD_of_getElem?_some a hi
      have hgj : l.getD j a = b := getD_of_getElem?_some a hj
      by_cases hij : i = j
      · subst hij
        have hab : a = b := by rw [hi] at hj; exact (Option.some_inj.mp hj)
        have hset : (l.set i b).getD i a = b := getD_set_self l i b a hi'
        rw [hset] at e2
        rw [hgi] at e1
        subst hab
        omega
      · have hset : (l.set i b).getD j a = b := by
          rw [getD_set_ne l i j b a hij, hgj]
        rw [hset] at e2
        rw [hgi] at e1
        omega

/-! ## Point and card-count bookkeeping -/

/-- Point value of a single card. -/
def cardPts (c : Card) : Nat := POINTS c.rank

/-- Total point value of a list of cards. -/
def deckPoints (l : List Card) : Nat := (l.map cardPts).sum

/-- Total point value held across all hands. -/
def handsPoints (hands : List (List Card)) : Nat :=
  (hands.map deckPoints).sum

/-- Total point value of the cards of a list of plays. -/
def playsPoints (plays : List TrickPlay) : Nat :=
  (plays.map (fun p => cardPts p.card)).sum

/-- The conserved quantity of a match state: banked scores, pending tie
points, and the points still sitting in the pile and in hands. -/
def totalPoints (s : MatchState) : Nat :=
  s.scores.1 + s.scores.2 + s.tiePoints + deckPoints s.deck +
    handsPoints s.hands

theorem sum_map_ones {α : Type} (l : List α) :
    (l.map (fun _ => (1 : Nat))).sum = l.length := by
  induction l with
  | nil => rfl
  | cons a t ih => simp [ih]; omega

theorem getD_of_length_le {α : Type} (l : List α) (i : Nat) (d : α)
    (h : l.length ≤ i) : l.getD i d = d := by
  induction l generalizing i with
  | nil => simp
  | cons a t ih =>
    cases i with
    | zero => simp at h
    | succ m => simpa using ih m (by simpa using h)

/-- `fillHand` in closed form: it appends exactly the first
`3 - hand.length` pile cards (fewer if the pile runs out, via the
truncation of `take`) and drops them from the pile. -/
theorem fillHand_eq (hand deck : List Card) :
    fillHand hand deck =
      (hand ++ deck.take (3 - hand.length), deck.drop (3 - hand.length)) := by
  induction deck generalizing hand with
  | nil => simp [fillHand]
  | cons c rest ih =>
    by_cases h : hand.length < 3
    · have h3 : 3 - hand.length = (3 - (hand ++ [c]).length) + 1 := by
        simp; omega
      rw [fillHand, if_pos h, ih (hand ++ [c]), h3]
      simp [List.take_succ_cons, List.drop_succ_cons]
    · have h0 : 3 - hand.length = 0 := by omega
      rw [fillHand, if_neg h, h0]
      simp

/-- Every seat index below 6 occurs in every seat order. -/
theorem mem_seatOrder (start p : Nat) (hp : p < 6) : p ∈ seatOrder start := by
  unfold seatOrder
  refine List.mem_map.mpr ⟨(p + 6 - start % 6) % 6, List.mem_range.mpr ?_, ?_⟩
  · exact Nat.mod_lt _ (by omega)
  · omega

theorem seatOrder_lt (start : Nat) : ∀ p ∈ seatOrder start, p < 6 := by
  intro p hp
  obtain ⟨i, _, rfl⟩ := List.mem_map.mp hp
  exact Nat.mod_lt _ (by omega)

/-! ## Lemmas about the trick-collection fold -/

theorem fold_playStep_length (js : List Nat) :
    ∀ (hands : List (List Card)) (acc : List TrickPlay),
      ((js.foldl playStep (hands, acc)).1).length = hands.length := by
  induction js with
  | nil => intro hands acc; rfl
  | cons p rest ih =>
    intro hands acc
    simp only [List.foldl_cons, playStep]
    cases h : hands.getD p [] with
    | nil => simpa [h] using ih hands acc
    | cons c t => simpa [h, List.length_set] using ih (hands.set p t) _

theorem fold_playStep_plays_mono (js : List Nat) :
    ∀ (hands : List (List Card)) (acc : List TrickPlay),
      acc.length ≤ ((js.foldl playStep (hands, acc)).2).length := by
  induction js with
  | nil => intro hands acc; simp
  | cons p rest ih =>
    intro hands acc
    simp only [List.foldl_cons, playStep]
    cases h : hands.getD p [] with
    | nil => simpa [h] using ih hands acc
    | cons c t =>
      have := ih (hands.set p t) (acc ++ [⟨p, c⟩])
      simp only [h]
      simp at this
      omega

/-- Conserved weighted sum across the trick-collection fold: whatever
leaves the hands reappears among the collected plays. -/
theorem fold_playStep_conserve (g : Card → Nat) (f : List Card → Nat)
    (hf : ∀ c t, f (c :: t) = g c + f t) (hf0 : f [] = 0) (js : List Nat) :
    ∀ (hands : List (List Card)) (acc : List TrickPlay),
      (((js.foldl playStep (hands, acc)).1).map f).sum +
        (((js.foldl playStep (hands, acc)).2).map (fun p => g p.card)).sum =
      (hands.map f).sum + (acc.map (fun p => g p.card)).sum := by
  induction js with
  | nil => intro hands acc; rfl
  | cons p rest ih =>
    intro hands acc
    simp only [List.foldl_cons, playStep]
    cases h : hands.getD p [] with
    | nil => simpa [h] using ih hands acc
    | cons c t =>
      have hp : p < hands.length := by
        by_contra hnp
        rw [getD_of_length_le hands p [] (by omega)] at h
        exact List.noConfusion h
      have hset := sum_map_set f hands p t [] hp
      rw [h, hf c t] at hset
      have hrec := ih (hands.set p t) (acc ++ [⟨p, c⟩])
      simp only [h]
      rw [hrec]
      simp only [List.map_append, List.sum_append, List.map_cons,
        List.map_nil, List.sum_cons, List.sum_nil]
      omega

/-- Once a seat with a non-empty hand is visited, the total card count
in hands strictly decreases. -/
theorem fold_playStep_strict (js : List Nat) :
    ∀ (hands : List (List Card)) (acc : List TrickPlay) (p : Nat),
      p ∈ js → hands.getD p [] ≠ [] →
      handsCount ((js.foldl playStep (hands, acc)).1) < handsCount hands := by
  induction js with
  | nil => intro hands acc p hp; simp at hp
  | cons q rest ih =>
    intro hands acc p hp hne
    have hmono : ∀ (hs : List (List Card)) (ac : List TrickPlay),
        handsCount ((rest.foldl playStep (hs, ac)).1) ≤ handsCount hs := by
      intro hs ac
      have hcons := fold_playStep_conserve (fun _ => 1) List.length
        (by intro c t; simp; omega) rfl rest hs ac
      have hm := fold_playStep_plays_mono rest hs ac
      rw [sum_map_ones, sum_map_ones] at hcons
      unfold handsCount
      omega
    simp only [List.foldl_cons, playStep]
    cases h : hands.getD q [] with
    | nil =>
      have hpq : p ≠ q := by intro e; rw [e, h] at hne; exact hne rfl
      have hp2 : p ∈ rest := by
        rcases List.mem_cons.mp hp with e | e
        · exact absurd e hpq
        · exact e
      simpa [h] using ih hands acc p hp2 hne
    | cons c t =>
      have hq : q < hands.length := by
        by_contra hnp
        rw [getD_of_length_le hands q [] (by omega)] at h
        exact List.noConfusion h
      have hset := sum_map_set List.length hands q t [] hq
      rw [h] at hset
      have hdec : handsCount (hands.set q t) < handsCount hands := by
        unfold handsCount
        simp only [List.length_cons] at hset
        omega
      calc handsCount ((rest.foldl playStep (hands.set q t, acc ++ [⟨q, c⟩])).1)
          ≤ handsCount (hands.set q t) := hmono _ _
        _ < handsCount hands := hdec

/-! ## Lemmas about the draw-replenishment fold -/

/-- The draw fold conserves any weighted sum split between hands and
pile, and never changes the number of hands, provided every visited seat
index is in range. -/
theorem fold_drawStep_conserve (g : Card → Nat) (f : List Card → Nat)
    (hf : ∀ a b, f (a ++ b) = f a + (b.map g).sum) (js : List Nat) :
    ∀ (hands : List (List Card)) (deck : List Card),
      (∀ p ∈ js, p < hands.length) →
      (((js.foldl drawStep (hands, deck)).1).map f).sum +
          (((js.foldl drawStep (hands, deck)).2).map g).sum =
        (hands.map f).sum + (deck.map g).sum ∧
      ((js.foldl drawStep (hands, deck)).1).length = hands.length := by
  induction js with
  | nil => intro hands deck _; exact ⟨rfl, rfl⟩
  | cons p rest ih =>
    intro hands deck hin
    have hp : p < hands.length := hin p (List.mem_cons_self p rest)
    simp only [List.foldl_cons, drawStep, fillHand_eq]
    set k := 3 - (hands.getD p []).length with hk
    set hand2 := hands.getD p [] ++ deck.take k with hh2
    have hset := sum_map_set f hands p hand2 [] hp
    have hfh : f hand2 =
        f (hands.getD p []) + ((deck.take k).map g).sum := by
      rw [hh2, hf]
    have hdk : (deck.map g).sum =
        ((deck.take k).map g).sum + ((deck.drop k).map g).sum := by
      conv_lhs => rw [show deck = deck.take k ++ deck.drop k from
        (List.take_append_drop k deck).symm]
      simp
    have hrec := ih (hands.set p hand2) (deck.drop k)
      (by intro q hq; rw [List.length_set]; exact hin q (List.mem_cons_of_mem p hq))
    refine ⟨?_, ?_⟩
    · rw [hrec.1]
      omega
    · rw [hrec.2, List.length_set]

/-! ## Lemmas about the shuffle -/

theorem shuffleAux_length (n : Nat) :
    ∀ (state : Nat) (deck : List Card),
      (shuffleAux n state deck).length = deck.length := by
  induction n with
  | zero => intro state deck; rfl
  | succ m ih =>
    intro state deck
    rw [shuffleAux, ih, length_swapL]

theorem shuffleAux_sum (f : Card → Nat) (n : Nat) :
    ∀ (state : Nat) (deck : List Card),
      ((shuffleAux n state deck).map f).sum = (deck.map f).sum := by
  induction n with
  | zero => intro state deck; rfl
  | succ m ih =>
    intro state deck
    rw [shuffleAux, ih, sum_map_swapL]

theorem createShuffledDeck_length (state : Nat) :
    (createShuffledDeck state).length = 36 := by
  rw [createShuffledDeck, shuffleAux_length]
  rfl

theorem createShuffledDeck_points (state : Nat) :
    deckPoints (createShuffledDeck state) = 120 := by
  rw [deckPoints, createShuffledDeck, shuffleAux_sum]
  decide

/-! ## Lemmas about the deal -/

theorem fold_dealStep_deck (js : List Nat) :
    ∀ (hands : List (List Card)) (deck : List Card),
      (js.foldl dealStep (hands, deck)).2 = deck.drop js.length := by
  induction js with
  | nil => intro hands deck; simp
  | cons p rest ih =>
    intro hands deck
    cases deck with
    | nil => simp only [List.foldl_cons, dealStep]; rw [ih]; simp
    | cons c cs =>
      simp only [List.foldl_cons, dealStep]
      rw [ih]
      simp

theorem fold_dealStep_conserve (g : Card → Nat) (f : List Card → Nat)
    (hf : ∀ a b, f (a ++ b) = f a + (b.map g).sum) (js : List Nat) :
    ∀ (hands : List (List Card)) (deck : List Card),
      (∀ p ∈ js, p < hands.length) →
      (((js.foldl dealStep (hands, deck)).1).map f).sum +
          (((js.foldl dealStep (hands, deck)).2).map g).sum =
        (hands.map f).sum + (deck.map g).sum ∧
      ((js.foldl dealStep (hands, deck)).1).length = hands.length := by
  induction js with
  | nil => intro hands deck _; exact ⟨rfl, rfl⟩
  | cons p rest ih =>
    intro hands deck hin
    have hp : p < hands.length := hin p (List.mem_cons_self p rest)
    cases deck with
    | nil =>
      simp only [List.foldl_cons, dealStep]
      exact ih hands [] (fun q hq => hin q (List.mem_cons_of_mem p hq))
    | cons c cs =>
      simp only [List.foldl_cons, dealStep]
      set hand2 := hands.getD p [] ++ [c] with hh2
      have hset := sum_map_set f hands p hand2 [] hp
      have hfh : f hand2 = f (hands.getD p []) + g c := by
        rw [hh2, hf]
        simp
      have hrec := ih (hands.set p hand2) cs
        (by intro q hq; rw [List.length_set]; exact hin q (List.mem_cons_of_mem p hq))
      refine ⟨?_, ?_⟩
      · rw [hrec.1]
        simp only [List.map_cons, List.sum_cons, List.map_nil,
          List.sum_nil] at hset ⊢
        omega
      · rw [hrec.2, List.length_set]

/-! ## Facts about resolveTrick -/

theorem foldl_add_pts (plays : List TrickPlay) :
    ∀ a : Nat, plays.foldl (fun acc p => acc + POINTS p.card.rank) a =
      a + playsPoints plays := by
  induction plays with
  | nil => intro a; simp [playsPoints]
  | cons p t ih =>
    intro a
    have := ih (a + POINTS p.card.rank)
    simp only [List.foldl_cons, this, playsPoints, List.map_cons,
      List.sum_cons, cardPts]
    omega

theorem resolveTrick_none_iff (plays : List TrickPlay) (trump : Suit) :
    resolveTrick plays trump = none ↔ plays = [] := by
  cases plays with
  | nil => simp [resolveTrick]
  | cons p t =>
    rw [resolveTrick]
    constructor
    · intro h
      split at h <;> exact Option.noConfusion h
    · intro h
      exact List.noConfusion h

theorem resolveTrick_points (plays : List TrickPlay) (trump : Suit)
    (r : TrickResult) (h : resolveTrick plays trump = some r) :
    r.points = playsPoints plays := by
  cases plays with
  | nil => exact Option.noConfusion h
  | cons p t =>
    rw [resolveTrick] at h
    split at h <;>
    · injection h with h2
      rw [← h2]
      simp only [foldl_add_pts, playsPoints, List.map_cons, List.sum_cons,
        cardPts]
      omega

theorem resolveTrick_shape (plays : List TrickPlay) (trump : Suit)
    (r : TrickResult) (h : resolveTrick plays trump = some r) :
    (r.tie = true ∧ r.winner = none) ∨
    (r.tie = false ∧ ∃ w, r.winner = some w) := by
  cases plays with
  | nil => exact Option.noConfusion h
  | cons p t =>
    rw [resolveTrick] at h
    split at h
    · injection h with h2
      rw [← h2]
      left
      exact ⟨rfl, rfl⟩
    · injection h with h2
      rw [← h2]
      right
      exact ⟨rfl, _, rfl⟩

/-! ## State-level bookkeeping lemmas -/

theorem addScore_sum (sc : Nat × Nat) (team x : Nat) :
    (addScore sc team x).1 + (addScore sc team x).2 = sc.1 + sc.2 + x := by
  unfold addScore
  split <;> simp <;> omega

theorem exists_nonempty_hand (hands : List (List Card))
    (h : handsCount hands ≠ 0) :
    ∃ p, p < hands.length ∧ hands.getD p [] ≠ [] := by
  induction hands with
  | nil => simp [handsCount] at h
  | cons a t ih =>
    by_cases ha : a = []
    · subst ha
      have h2 : handsCount t ≠ 0 := by simpa [handsCount] using h
      obtain ⟨p, hp, hne⟩ := ih h2
      exact ⟨p + 1, by simpa using hp, by simpa using hne⟩
    · exact ⟨0, by simp, by simpa using ha⟩

theorem handsPoints_of_empty (hands : List (List Card))
    (h : handsCount hands = 0) : handsPoints hands = 0 := by
  induction hands with
  | nil => rfl
  | cons a t ih =>
    simp only [handsCount, List.map_cons, List.sum_cons] at h
    have ha : a.length = 0 := by omega
    have ht : handsCount t = 0 := by simp only [handsCount]; omega
    have ha2 : a = [] := List.length_eq_zero.mp ha
    subst ha2
    have hrec := ih ht
    simp only [handsPoints, List.map_cons, List.sum_cons]
    simp only [handsPoints] at hrec
    simp [deckPoints, hrec]

theorem drawAfterTrick_props (s : MatchState) (w : Nat)
    (h6 : s.hands.length = 6) :
    (drawAfterTrick s w).hands.length = 6 ∧
    handsCount (drawAfterTrick s w).hands + (drawAfterTrick s w).deck.length =
      handsCount s.hands + s.deck.length ∧
    handsPoints (drawAfterTrick s w).hands +
        deckPoints (drawAfterTrick s w).deck =
      handsPoints s.hands + deckPoints s.deck ∧
    (drawAfterTrick s w).scores = s.scores ∧
    (drawAfterTrick s w).tiePoints = s.tiePoints ∧
    (drawAfterTrick s w).leadPlayer = s.leadPlayer := by
  have hin : ∀ p ∈ seatOrder w, p < s.hands.length := by
    intro p hp
    rw [h6]
    exact seatOrder_lt w p hp
  have hcnt := fold_drawStep_conserve (fun _ => 1) List.length
    (by intro a b; simp [sum_map_ones]) (seatOrder w) s.hands s.deck hin
  have hpts := fold_drawStep_conserve cardPts deckPoints
    (by intro a b; simp [deckPoints]) (seatOrder w) s.hands s.deck hin
  rw [sum_map_ones, sum_map_ones] at hcnt
  unfold drawAfterTrick
  refine ⟨by simpa using hcnt.2.trans h6, ?_, ?_, rfl, rfl, rfl⟩
  · simpa [handsCount] using hcnt.1
  · simpa [handsPoints, deckPoints] using hpts.1

theorem collectPlays_length (lead : Nat) (hands : List (List Card)) :
    (collectPlays lead hands).1.length = hands.length := by
  unfold collectPlays
  exact fold_playStep_length (seatOrder lead) hands []

theorem collectPlays_count (lead : Nat) (hands : List (List Card)) :
    handsCount (collectPlays lead hands).1 +
      ((collectPlays lead hands).2).length = handsCount hands := by
  unfold collectPlays
  have hcons := fold_playStep_conserve (fun _ => 1) List.length
    (by intro c t; simp; omega) rfl (seatOrder lead) hands []
  rw [sum_map_ones, sum_map_ones] at hcons
  unfold handsCount
  simpa using hcons

theorem collectPlays_points (lead : Nat) (hands : List (List Card)) :
    handsPoints (collectPlays lead hands).1 +
      playsPoints (collectPlays lead hands).2 = handsPoints hands := by
  unfold collectPlays
  have hcons := fold_playStep_conserve cardPts deckPoints
    (by intro c t; simp [deckPoints]) rfl (seatOrder lead) hands []
  unfold handsPoints playsPoints
  simpa using hcons

theorem collectPlays_strict (lead : Nat) (hands : List (List Card))
    (h6 : hands.length = 6) (hne : handsCount hands ≠ 0) :
    handsCount (collectPlays lead hands).1 < handsCount hands := by
  obtain ⟨p, hp, hpne⟩ := exists_nonempty_hand hands hne
  exact fold_playStep_strict (seatOrder lead) hands [] p
    (mem_seatOrder lead p (h6 ▸ hp)) hpne


/-- The scoring step keeps the hand count, conserves cards between hands
and pile, and adds exactly the trick's points to the conserved total
when the result is a tie or a clear win. -/
theorem applyTrickResult_props (s1 : MatchState) (res : Option TrickResult)
    (h6 : s1.hands.length = 6) :
    (applyTrickResult s1 res).hands.length = 6 ∧
    handsCount (applyTrickResult s1 res).hands +
        (applyTrickResult s1 res).deck.length =
      handsCount s1.hands + s1.deck.length ∧
    (res = none → applyTrickResult s1 res = s1) ∧
    (∀ result, res = some result →
      (result.tie = true ∨ ∃ w, result.winner = some w) →
      totalPoints (applyTrickResult s1 res) = totalPoints s1 + result.points) := by
  cases res with
  | none => exact ⟨h6, rfl, fun _ => rfl, fun result h => Option.noConfusion h⟩
  | some result =>
    cases htie : result.tie with
    | true =>
      have he : applyTrickResult s1 (some result) =
          { s1 with tiePoints := s1.tiePoints + result.points } := by
        simp [applyTrickResult, htie]
      rw [he]
      refine ⟨h6, rfl, fun h => Option.noConfusion h, ?_⟩
      intro result2 heq _
      injection heq with heq2
      subst heq2
      simp only [totalPoints]
      omega
    | false =>
      cases hw : result.winner with
      | none =>
        have he : applyTrickResult s1 (some result) = s1 := by
          simp [applyTrickResult, htie, hw]
        rw [he]
        refine ⟨h6, rfl, fun h => Option.noConfusion h, ?_⟩
        intro result2 heq hcase
        injection heq with heq2
        subst heq2
        rcases hcase with h | ⟨w, hww⟩
        · rw [htie] at h
          exact Bool.noConfusion h
        · rw [hw] at hww
          exact Option.noConfusion hww
      | some w =>
        have he : applyTrickResult s1 (some result) =
            if s1.deck.length > 0 then
              drawAfterTrick { s1 with
                scores := addScore s1.scores (teamOfPlayer w)
                  (result.points + s1.tiePoints),
                tiePoints := 0,
                leadPlayer := nextLead s1.leadPlayer (some w) } w
            else { s1 with
              scores := addScore s1.scores (teamOfPlayer w)
                (result.points + s1.tiePoints),
              tiePoints := 0,
              leadPlayer := nextLead s1.leadPlayer (some w) } := by
          simp [applyTrickResult, htie, hw]
        rw [he]
        have hsum := addScore_sum s1.scores (teamOfPlayer w)
          (result.points + s1.tiePoints)
        by_cases hdeck : s1.deck.length > 0
        · rw [if_pos hdeck]
          have hd := drawAfterTrick_props { s1 with
            scores := addScore s1.scores (teamOfPlayer w)
              (result.points + s1.tiePoints),
            tiePoints := 0,
            leadPlayer := nextLead s1.leadPlayer (some w) } w h6
          rcases hd with ⟨hd1, hd2, hd3, hd4, hd5, _⟩
          refine ⟨hd1, hd2, fun h => Option.noConfusion h, ?_⟩
          intro result2 heq _
          injection heq with heq2
          subst heq2
          simp only [totalPoints, hd4, hd5]
          simp only [totalPoints] at hd3
          omega
        · rw [if_neg hdeck]
          refine ⟨h6, rfl, fun h => Option.noConfusion h, ?_⟩
          intro result2 heq _
          injection heq with heq2
          subst heq2
          simp only [totalPoints]
          omega

/-- One `playHand` loop iteration keeps 6 hands, conserves the total
points, and (when some hand is non-empty) strictly shrinks the number of
cards held in hands plus pile. -/
theorem trickStep_props (s : MatchState) (h6 : s.hands.length = 6) :
    (trickStep s).hands.length = 6 ∧
    totalPoints (trickStep s) = totalPoints s ∧
    (handsCount s.hands ≠ 0 →
      handsCount (trickStep s).hands + (trickStep s).deck.length <
        handsCount s.hands + s.deck.length) := by
  have hlen := collectPlays_length s.leadPlayer s.hands
  have hcnt := collectPlays_count s.leadPlayer s.hands
  have hpts := collectPlays_points s.leadPlayer s.hands
  have he : trickStep s = applyTrickResult
      { s with hands := (collectPlays s.leadPlayer s.hands).1,
               log := s.log ++ (collectPlays s.leadPlayer s.hands).2.map
                 (fun p => ⟨p.player, p.card, "play"⟩) }
      (resolveTrick (collectPlays s.leadPlayer s.hands).2 s.trump) := by
    simp only [trickStep]
  rw [he]
  set s1 : MatchState :=
    { s with hands := (collectPlays s.leadPlayer s.hands).1,
             log := s.log ++ (collectPlays s.leadPlayer s.hands).2.map
               (fun p => ⟨p.player, p.card, "play"⟩) } with hs1
  have hh : s1.hands = (collectPlays s.leadPlayer s.hands).1 := by rw [hs1]
  have hdk : s1.deck = s.deck := by rw [hs1]
  have h61 : s1.hands.length = 6 := by rw [hh, hlen]; exact h6
  obtain ⟨ha1, ha2, ha3, ha4⟩ := applyTrickResult_props s1
    (resolveTrick (collectPlays s.leadPlayer s.hands).2 s.trump) h61
  have hts1 : totalPoints s1 +
      playsPoints (collectPlays s.leadPlayer s.hands).2 = totalPoints s := by
    rw [hs1]
    simp only [totalPoints]
    omega
  refine ⟨ha1, ?_, ?_⟩
  · cases hres : resolveTrick (collectPlays s.leadPlayer s.hands).2 s.trump with
    | none =>
      rw [hres] at ha3
      rw [ha3 rfl]
      have hempty : (collectPlays s.leadPlayer s.hands).2 = [] :=
        (resolveTrick_none_iff _ _).mp hres
      rw [hempty] at hts1
      simpa [playsPoints] using hts1
    | some result =>
      rw [hres] at ha4
      have hshape := resolveTrick_shape _ _ _ hres
      have hrp := resolveTrick_points _ _ _ hres
      have hcase : result.tie = true ∨ ∃ w, result.winner = some w := by
        rcases hshape with ⟨ht, _⟩ | ⟨_, w, hw⟩
        · exact Or.inl ht
        · exact Or.inr ⟨w, hw⟩
      have := ha4 result rfl hcase
      omega
  · intro hne
    have hstrict := collectPlays_strict s.leadPlayer s.hands h6 hne
    rw [hh, hdk] at ha2
    omega

/-! ## The playHand loop -/

theorem playHandAux_stable (fuel : Nat) (s : MatchState)
    (h : handsCount s.hands = 0) : playHandAux fuel s = s := by
  cases fuel with
  | zero => rfl
  | succ n => simp [playHandAux, h]

/-- With fuel at least the number of cards in hands plus pile, the loop
runs to completion: all hands end empty, the total points are conserved,
and the hands list stays 6 long. -/
theorem playHandAux_run (fuel : Nat) :
    ∀ s : MatchState, s.hands.length = 6 →
      handsCount s.hands + s.deck.length ≤ fuel →
      handsCount (playHandAux fuel s).hands = 0 ∧
      totalPoints (playHandAux fuel s) = totalPoints s ∧
      (playHandAux fuel s).hands.length = 6 := by
  induction fuel with
  | zero =>
    intro s h6 hle
    have : handsCount s.hands = 0 := by omega
    exact ⟨this, rfl, h6⟩
  | succ n ih =>
    intro s h6 hle
    by_cases h0 : handsCount s.hands = 0
    · rw [playHandAux, if_pos h0]
      exact ⟨h0, rfl, h6⟩
    · rw [playHandAux, if_neg h0]
      obtain ⟨hl, ht, hm⟩ := trickStep_props s h6
      obtain ⟨r1, r2, r3⟩ := ih (trickStep s) hl (by have := hm h0; omega)
      exact ⟨r1, r2.trans ht, r3⟩

/-- Extra fuel beyond the card count changes nothing: the loop has
already reached its fixed point. -/
theorem playHandAux_extend (fuel : Nat) :
    ∀ (s : MatchState) (extra : Nat), s.hands.length = 6 →
      handsCount s.hands + s.deck.length ≤ fuel →
      playHandAux (fuel + extra) s = playHandAux fuel s := by
  induction fuel with
  | zero =>
    intro s extra h6 hle
    have h0 : handsCount s.hands = 0 := by omega
    rw [playHandAux_stable _ _ h0, playHandAux_stable _ _ h0]
  | succ n ih =>
    intro s extra h6 hle
    by_cases h0 : handsCount s.hands = 0
    · rw [playHandAux_stable _ _ h0, playHandAux_stable _ _ h0]
    · have hsucc : n + 1 + extra = (n + extra) + 1 := by omega
      rw [hsucc, playHandAux, if_neg h0, playHandAux, if_neg h0]
      obtain ⟨hl, _, hm⟩ := trickStep_props s h6
      exact ih (trickStep s) extra hl (by have := hm h0; omega)

theorem handsPoints_eq (l : List (List Card)) :
    handsPoints l = (l.map deckPoints).sum := rfl

theorem deckPoints_eq (l : List Card) :
    deckPoints l = (l.map cardPts).sum := rfl

theorem handsCount_eq (l : List (List Card)) :
    handsCount l = (l.map List.length).sum := rfl

/-- One dealing round gives every seat one card off the front: lengths,
points and the pile's tail behave as expected. -/
theorem dealRound (acc : List (List Card) × List Card)
    (h6 : acc.1.length = 6) :
    ((List.range 6).foldl dealStep acc).1.length = 6 ∧
    handsPoints ((List.range 6).foldl dealStep acc).1 +
        deckPoints ((List.range 6).foldl dealStep acc).2 =
      handsPoints acc.1 + deckPoints acc.2 ∧
    ((List.range 6).foldl dealStep acc).2 = acc.2.drop 6 := by
  obtain ⟨hands, deck⟩ := acc
  have h6b : hands.length = 6 := h6
  have hin : ∀ p ∈ List.range 6, p < hands.length := by
    intro p hp
    rw [h6b]
    simpa using List.mem_range.mp hp
  have h := fold_dealStep_conserve cardPts deckPoints
    (by intro a b; simp [deckPoints]) (List.range 6) hands deck hin
  have hd := fold_dealStep_deck (List.range 6) hands deck
  refine ⟨h.2.trans h6b, ?_, ?_⟩
  · show handsPoints _ + deckPoints _ = handsPoints hands + deckPoints deck
    rw [handsPoints_eq, handsPoints_eq, deckPoints_eq, deckPoints_eq]
    exact h.1
  · show _ = deck.drop 6
    simpa using hd

/-- The three dealing rounds in closed form, for an arbitrary deck of
36 cards: 6 hands, all 36 card points split between hands and the
18-card remainder of the pile. -/
theorem init_deal_core (d0 : List Card)
    (F3 : List (List Card) × List Card)
    (hF3 : (List.range 3).foldl
      (fun acc _ => (List.range 6).foldl dealStep acc)
      (List.replicate 6 ([] : List Card), d0) = F3) :
    F3.1.length = 6 ∧
    handsPoints F3.1 + deckPoints F3.2 = deckPoints d0 ∧
    F3.2 = d0.drop 18 := by
  have hD : (List.range 3).foldl
      (fun acc _ => (List.range 6).foldl dealStep acc)
      (List.replicate 6 ([] : List Card), d0) =
      (List.range 6).foldl dealStep ((List.range 6).foldl dealStep
        ((List.range 6).foldl dealStep
          (List.replicate 6 ([] : List Card), d0))) := by
    show List.foldl _ _ [0, 1, 2] = _
    simp only [List.foldl_cons, List.foldl_nil]
  rw [hD] at hF3
  obtain ⟨q1l, q1p, q1d⟩ := dealRound
    (List.replicate 6 ([] : List Card), d0) (by simp)
  obtain ⟨q2l, q2p, q2d⟩ := dealRound _ q1l
  obtain ⟨q3l, q3p, q3d⟩ := dealRound _ q2l
  rw [hF3] at q3l q3p q3d
  dsimp only at q1p q1d
  have h0 : handsPoints (List.replicate 6 ([] : List Card)) = 0 := by decide
  refine ⟨q3l, by omega, ?_⟩
  rw [q3d, q2d, q1d]
  simp [List.drop_drop]

theorem initMatch_core (seed : List Nat) (d0 : List Card)
    (hd0 : createShuffledDeck (stringToSeed seed) = d0)
    (h36 : d0.length = 36) (h120 : deckPoints d0 = 120) :
    (initMatch seed).hands.length = 6 ∧ totalPoints (initMatch seed) = 120 := by
  obtain ⟨e1, e2, e3⟩ := init_deal_core d0
    ((List.range 3).foldl (fun acc _ => (List.range 6).foldl dealStep acc)
      (List.replicate 6 ([] : List Card), d0)) rfl
  have hlen18 : ((List.range 3).foldl
      (fun acc _ => (List.range 6).foldl dealStep acc)
      (List.replicate 6 ([] : List Card), d0)).2.length = 18 := by
    rw [e3]
    simp [h36]
  have hgoal : initMatch seed =
      { seed := seed,
        deck := ((List.range 3).foldl
          (fun acc _ => (List.range 6).foldl dealStep acc)
          (List.replicate 6 ([] : List Card), d0)).2.tail ++
          [((List.range 3).foldl
            (fun acc _ => (List.range 6).foldl dealStep acc)
            (List.replicate 6 ([] : List Card), d0)).2.headD ⟨.spades, .A⟩],
        trump := (((List.range 3).foldl
          (fun acc _ => (List.range 6).foldl dealStep acc)
          (List.replicate 6 ([] : List Card), d0)).2.headD ⟨.spades, .A⟩).suit,
        leadPlayer := 0,
        hands := ((List.range 3).foldl
          (fun acc _ => (List.range 6).foldl dealStep acc)
          (List.replicate 6 ([] : List Card), d0)).1,
        scores := (0, 0), tiePoints := 0,
        punishment := PunishmentQueue.init, log := [],
        trumpCard := ((List.range 3).foldl
          (fun acc _ => (List.range 6).foldl dealStep acc)
          (List.replicate 6 ([] : List Card), d0)).2.headD ⟨.spades, .A⟩,
        currentTrick := [] } := by
    simp only [initMatch]
    rw [hd0]
  cases hc : ((List.range 3).foldl
      (fun acc _ => (List.range 6).foldl dealStep acc)
      (List.replicate 6 ([] : List Card), d0)).2 with
  | nil => rw [hc] at hlen18; exact absurd hlen18 (by simp)
  | cons c t =>
    rw [hc] at e2
    have hrot : deckPoints (t ++ [c]) = deckPoints (c :: t) := by
      simp [deckPoints]
      omega
    constructor
    · rw [hgoal]
      exact e1
    · rw [hgoal, hc]
      simp only [totalPoints, List.tail_cons, List.headD_cons]
      rw [hrot]
      omega

theorem initMatch_props (seed : List Nat) :
    (initMatch seed).hands.length = 6 ∧ totalPoints (initMatch seed) = 120 :=
  initMatch_core seed (createShuffledDeck (stringToSeed seed)) rfl
    (createShuffledDeck_length _) (createShuffledDeck_points _)
/-! ## Claim theorems -/

set_option maxRecDepth 40000 in
set_option maxHeartbeats 4000000 in
/-- C3 (counterexample): for the seed "demo-0" a full hand distributes
120 points (the true total of the 36-card deck), not 116, so the claim
that team scores plus residual tie points sum to 116 is false. -/
theorem playHand_points_ne_116 :
    (playHand (initMatch demoSeed)).scores.1 +
        (playHand (initMatch demoSeed)).scores.2 +
        (playHand (initMatch demoSeed)).tiePoints = 120 ∧
    deckPoints baseDeck = 120 ∧ (120 : Nat) ≠ 116 :=
  ⟨by decide, by decide, by decide⟩

/-- C3 (amended): for every seed, after `playHand (initMatch seed)` all
hands are empty and team A's score plus team B's score plus residual
tie points plus the point value of any cards left undrawn in the pile
equals 120, the total point value of the 36-card deck. -/
theorem playHand_conserves_points (seed : List Nat) :
    (playHand (initMatch seed)).scores.1 +
        (playHand (initMatch seed)).scores.2 +
        (playHand (initMatch seed)).tiePoints +
        deckPoints (playHand (initMatch seed)).deck = 120 ∧
    handsCount (playHand (initMatch seed)).hands = 0 := by
  obtain ⟨h6, h120⟩ := initMatch_props seed
  obtain ⟨r1, r2, _⟩ := playHandAux_run
    (handsCount (initMatch seed).hands + (initMatch seed).deck.length)
    (initMatch seed) h6 le_rfl
  constructor
  · rw [playHand]
    have hp0 : handsPoints (playHandAux
        (handsCount (initMatch seed).hands + (initMatch seed).deck.length)
        (initMatch seed)).hands = 0 :=
      handsPoints_of_empty _ r1
    have htot := r2.trans h120
    simp only [totalPoints] at htot
    omega
  · rw [playHand]
    exact r1

/-- C10: for every match state with its 6 hands, the `playHand` loop
terminates: it reaches the all-hands-empty fixed point, and any extra
fuel beyond the total number of cards in hands plus pile changes
nothing. -/
theorem playHand_terminates (s : MatchState) (h6 : s.hands.length = 6) :
    handsCount (playHand s).hands = 0 ∧
    ∀ extra, playHandAux (handsCount s.hands + s.deck.length + extra) s =
      playHand s := by
  obtain ⟨r1, _, _⟩ := playHandAux_run
    (handsCount s.hands + s.deck.length) s h6 le_rfl
  refine ⟨by rw [playHand]; exact r1, ?_⟩
  intro extra
  rw [playHand]
  exact playHandAux_extend (handsCount s.hands + s.deck.length) s extra h6
    le_rfl

/-- C10 (witness): the termination theorem applied to a concrete state. -/
theorem playHand_terminates_witness :
    handsCount (playHand tinyState).hands = 0 ∧
    playHandAux (handsCount tinyState.hands + tinyState.deck.length + 3)
      tinyState = playHand tinyState :=
  ⟨(playHand_terminates tinyState (by decide)).1,
   (playHand_terminates tinyState (by decide)).2 3⟩

/-- C1 (code bug): with the `RANK_ORDER` shipped in
`src/packages/shared/src/index.ts`, the trick of the repository's own
test "ranks 7 above K, Q and J according to updated rules" is won by
the K of diamonds (player 1), not by the 7 of diamonds (player 2) as
the test, the spec and the updated `RANK_ORDER` of
`src/unnamed/part_000` all require: under the shipped order the 7
weighs strictly less than the same-suit K, while under the updated
order the 7 is the second-strongest rank. -/
theorem rankOrder_seven_is_weak :
    resolveTrick
      [⟨0, ⟨.diamonds, .J⟩⟩, ⟨1, ⟨.diamonds, .K⟩⟩, ⟨2, ⟨.diamonds, .r7⟩⟩,
       ⟨3, ⟨.diamonds, .r5⟩⟩, ⟨4, ⟨.diamonds, .Q⟩⟩, ⟨5, ⟨.diamonds, .r6⟩⟩]
      Suit.hearts =
      some { winner := some 1, points := 19, tie := false } ∧
    cardWeight ⟨.diamonds, .r7⟩ .hearts (some .diamonds) <
      cardWeight ⟨.diamonds, .K⟩ .hearts (some .diamonds) ∧
    cardWeight ⟨.diamonds, .r7⟩ .hearts (some .diamonds) <
      cardWeight ⟨.diamonds, .Q⟩ .hearts (some .diamonds) ∧
    cardWeight ⟨.diamonds, .r7⟩ .hearts (some .diamonds) <
      cardWeight ⟨.diamonds, .J⟩ .hearts (some .diamonds) ∧
    rankIndex RANK_ORDER .r7 = 4 ∧
    rankIndex RANK_ORDER_updated .r7 = 1 ∧
    rankStrength RANK_ORDER_updated .r7 > rankStrength RANK_ORDER_updated .K := by
  decide

/-- C2 (counterexample): the visible queue is already empty after the
7th `submit()` call (the first "2" clears it), so the claimed length 7
after call seven is wrong. -/
theorem punishmentQueue_seventh_clears :
    (PunishmentQueue.submitN 7 PunishmentQueue.init).queue = [] ∧
    (PunishmentQueue.submitN 7 PunishmentQueue.init).queue.length ≠ 7 := by
  decide

/-- C2 (amended): eight consecutive `submit()` calls produce visible
queue lengths 1,2,3,4,5,6 after calls one through six, then an empty
queue after the 7th call (the first "2") and again after the 8th (the
second "2"); a 9th call restarts the cycle by appending label "10". -/
theorem punishmentQueue_cycle :
    (PunishmentQueue.submitN 1 PunishmentQueue.init).queue.length = 1 ∧
    (PunishmentQueue.submitN 2 PunishmentQueue.init).queue.length = 2 ∧
    (PunishmentQueue.submitN 3 PunishmentQueue.init).queue.length = 3 ∧
    (PunishmentQueue.submitN 4 PunishmentQueue.init).queue.length = 4 ∧
    (PunishmentQueue.submitN 5 PunishmentQueue.init).queue.length = 5 ∧
    (PunishmentQueue.submitN 6 PunishmentQueue.init).queue.length = 6 ∧
    (PunishmentQueue.submitN 7 PunishmentQueue.init).queue = [] ∧
    (PunishmentQueue.submitN 8 PunishmentQueue.init).queue = [] ∧
    (PunishmentQueue.submitN 9 PunishmentQueue.init).queue = ["10"] := by
  decide

/-- C9: the lead policy: a tie keeps the current lead; a winner from
the leader's own team keeps the current lead; only a winner from the
other team takes the lead, and the lead never rotates to any player
other than the current leader or the winner. -/
theorem nextLead_policy (cur w : Nat) :
    nextLead cur none = cur ∧
    (teamOfPlayer w = teamOfPlayer cur → nextLead cur (some w) = cur) ∧
    (teamOfPlayer w ≠ teamOfPlayer cur → nextLead cur (some w) = w) ∧
    (nextLead cur (some w) = cur ∨ nextLead cur (some w) = w) := by
  unfold nextLead
  by_cases h : teamOfPlayer w = teamOfPlayer cur <;> simp [h]

/-- C9 (witness): the policy at concrete seats: a tie keeps seat 3, a
same-team win (players 0 and 2) keeps seat 0, an opposing-team win
moves the lead to player 1. -/
theorem nextLead_policy_witness :
    nextLead 3 none = 3 ∧ nextLead 0 (some 2) = 0 ∧ nextLead 0 (some 1) = 1 :=
  ⟨(nextLead_policy 3 0).1, (nextLead_policy 0 2).2.1 (by decide),
   (nextLead_policy 0 1).2.2.1 (by decide)⟩

/-- C8: draw replenishment.  First conjunct: each player's inner draw
loop takes cards one at a time from the front of the pile until the
hand holds 3 cards or the pile is empty.  The rest: with winner 3 and
a pile covering every deficit, the seats draw in the order
3, 4, 5, 0, 1, 2 — player 3 takes the first `k3` pile cards, player 4
the next `k4`, and so on — each hand ending with exactly 3 cards and
the pile losing exactly the deficits drawn. -/
theorem drawAfterTrick_order (s : MatchState)
    (h0 h1 h2 h3 h4 h5 : List Card) (k0 k1 k2 k3 k4 k5 : Nat)
    (hh : s.hands = [h0, h1, h2, h3, h4, h5])
    (hk0 : h0.length + k0 = 3) (hk1 : h1.length + k1 = 3)
    (hk2 : h2.length + k2 = 3) (hk3 : h3.length + k3 = 3)
    (hk4 : h4.length + k4 = 3) (hk5 : h5.length + k5 = 3)
    (hd : k3 + k4 + k5 + k0 + k1 + k2 ≤ s.deck.length) :
    (∀ hand deck : List Card, fillHand hand deck =
      (hand ++ deck.take (3 - hand.length),
       deck.drop (3 - hand.length))) ∧
    (drawAfterTrick s 3).hands =
      [h0 ++ ((((s.deck.drop k3).drop k4).drop k5).take k0),
       h1 ++ (((((s.deck.drop k3).drop k4).drop k5).drop k0).take k1),
       h2 ++ ((((((s.deck.drop k3).drop k4).drop k5).drop k0).drop k1).take k2),
       h3 ++ s.deck.take k3,
       h4 ++ ((s.deck.drop k3).take k4),
       h5 ++ (((s.deck.drop k3).drop k4).take k5)] ∧
    (drawAfterTrick s 3).deck =
      (((((s.deck.drop k3).drop k4).drop k5).drop k0).drop k1).drop k2 ∧
    (∀ p, p < 6 → ((drawAfterTrick s 3).hands.getD p []).length = 3) := by
  have e0 : 3 - h0.length = k0 := by omega
  have e1 : 3 - h1.length = k1 := by omega
  have e2 : 3 - h2.length = k2 := by omega
  have e3 : 3 - h3.length = k3 := by omega
  have e4 : 3 - h4.length = k4 := by omega
  have e5 : 3 - h5.length = k5 := by omega
  have hseat : seatOrder 3 = [3, 4, 5, 0, 1, 2] := by decide
  have hmain : (drawAfterTrick s 3).hands =
      [h0 ++ ((((s.deck.drop k3).drop k4).drop k5).take k0),
       h1 ++ (((((s.deck.drop k3).drop k4).drop k5).drop k0).take k1),
       h2 ++ ((((((s.deck.drop k3).drop k4).drop k5).drop k0).drop k1).take k2),
       h3 ++ s.deck.take k3,
       h4 ++ ((s.deck.drop k3).take k4),
       h5 ++ (((s.deck.drop k3).drop k4).take k5)] ∧
      (drawAfterTrick s 3).deck =
        (((((s.deck.drop k3).drop k4).drop k5).drop k0).drop k1).drop k2 := by
    unfold drawAfterTrick
    rw [hseat, hh]
    simp only [List.foldl_cons, List.foldl_nil, drawStep, fillHand_eq,
      List.getD_cons_zero, List.getD_cons_succ,
      List.set_cons_zero, List.set_cons_succ]
    rw [e3, e4, e5, e0, e1, e2]
    exact ⟨rfl, rfl⟩
  refine ⟨fillHand_eq, hmain.1, hmain.2, ?_⟩
  intro p hp
  rw [hmain.1]
  have hp6 : p = 0 ∨ p = 1 ∨ p = 2 ∨ p = 3 ∨ p = 4 ∨ p = 5 := by omega
  rcases hp6 with rfl | rfl | rfl | rfl | rfl | rfl <;>
    simp [List.length_take, List.length_drop] <;> omega

/-- C8 (witness): the order theorem applied at the concrete scenario:
player 3 draws the first pile card, players 4, 5, 0, 1, 2 follow, and
every hand ends with 3 cards. -/
theorem drawAfterTrick_order_witness :
    (drawAfterTrick drawDemoState 3).hands.getD 3 [] =
      [⟨.hearts, .r5⟩, ⟨.hearts, .r4⟩, ⟨.spades, .A⟩] ∧
    ((drawAfterTrick drawDemoState 3).hands.getD 2 []).length = 3 := by
  have h := drawAfterTrick_order drawDemoState
    [⟨.hearts, .A⟩, ⟨.hearts, .K⟩] [⟨.hearts, .Q⟩, ⟨.hearts, .J⟩]
    [⟨.hearts, .r7⟩, ⟨.hearts, .r6⟩] [⟨.hearts, .r5⟩, ⟨.hearts, .r4⟩]
    [⟨.hearts, .r3⟩, ⟨.diamonds, .A⟩] [⟨.diamonds, .K⟩, ⟨.diamonds, .Q⟩]
    1 1 1 1 1 1 rfl (by decide) (by decide) (by decide) (by decide)
    (by decide) (by decide) (by decide)
  constructor
  · rw [h.2.1]
    decide
  · exact h.2.2.2 2 (by decide)

theorem cardMatches_iff (c card : Card) : cardMatches c card = true ↔ c = card := by
  rcases c with ⟨cs, cr⟩
  rcases card with ⟨ds, dr⟩
  simp only [cardMatches, Bool.and_eq_true, beq_iff_eq, Card.mk.injEq]
  constructor
  · rintro ⟨h1, h2⟩
    exact ⟨h2, h1⟩
  · rintro ⟨h1, h2⟩
    exact ⟨h2, h1⟩

theorem findIdx_len_of_not_mem (l : List Card) (card : Card)
    (h : card ∉ l) :
    l.findIdx (fun c => cardMatches c card) ≥ l.length := by
  induction l with
  | nil => simp
  | cons a t ih =>
    have ha : cardMatches a card = false := by
      cases hb : cardMatches a card
      · rfl
      · have h2 : a = card := (cardMatches_iff a card).mp hb
        subst h2
        exact absurd (List.mem_cons_self a t) h
    have ht : card ∉ t := fun hm => h (List.mem_cons_of_mem a hm)
    have := ih ht
    rw [List.findIdx_cons, ha, cond_false]
    simp only [List.length_cons]
    omega

/-- C6: `playCard` fails when the player is not the turn-holder
`(leadPlayer + trick length) mod 6`, and fails when the exact card is
not in that player's hand; in both cases it returns the input
`MatchState` untouched together with an error. -/
theorem playCard_invalid_unmodified (s : MatchState) (player : Nat)
    (card : Card)
    (h : player ≠ (s.leadPlayer + s.currentTrick.length) % 6 ∨
      card ∉ s.hands.getD player []) :
    ∃ e, playCard s player card = (s, some e) ∧
      (playCard s player card).1 = s := by
  by_cases hturn : player ≠ (s.leadPlayer + s.currentTrick.length) % 6
  · have heq : playCard s player card = (s, some "not the player's turn") := by
      simp only [playCard]
      rw [if_pos hturn]
    exact ⟨_, heq, by rw [heq]⟩
  · have hcard : card ∉ s.hands.getD player [] := by
      rcases h with h1 | h2
      · exact absurd h1 hturn
      · exact h2
    have hidx := findIdx_len_of_not_mem (s.hands.getD player []) card hcard
    have heq : playCard s player card =
        (s, some "Player does not have that card") := by
      simp only [playCard]
      rw [if_neg hturn, if_pos hidx]
    exact ⟨_, heq, by rw [heq]⟩

/-- C6 (witness): playing out of turn from a concrete state returns the
state unchanged with an error. -/
theorem playCard_invalid_witness :
    ∃ e, playCard tinyState 1 ⟨.hearts, .K⟩ = (tinyState, some e) ∧
      (playCard tinyState 1 ⟨.hearts, .K⟩).1 = tinyState := by
  have h : (1 : Nat) ≠ (tinyState.leadPlayer + tinyState.currentTrick.length) % 6 ∨
      (⟨.hearts, .K⟩ : Card) ∉ tinyState.hands.getD 1 [] := by decide
  exact playCard_invalid_unmodified tinyState 1 ⟨.hearts, .K⟩ h

/-- C5: a successful `playCard` that brings the trick to 6 plays
resolves it and clears the in-progress trick; on a tie the points
accumulate into `tiePoints` with lead, scores and pile untouched; on a
clear win the winner's team banks exactly the trick points plus the
carried tie points, tie points reset, the lead follows the lead policy,
and the hands are replenished from the pile exactly when the pile is
non-empty. -/
theorem playCard_completes_trick (s : MatchState) (player : Nat)
    (card : Card)
    (hlen : s.currentTrick.length = 5)
    (hturn : player = (s.leadPlayer + s.currentTrick.length) % 6)
    (hcard : card ∈ s.hands.getD player []) :
    ∃ r, resolveTrick (s.currentTrick ++ [⟨player, card⟩]) s.trump = some r ∧
      (playCard s player card).2 = none ∧
      (playCard s player card).1.currentTrick = [] ∧
      (r.tie = true →
        (playCard s player card).1.tiePoints = s.tiePoints + r.points ∧
        (playCard s player card).1.leadPlayer = s.leadPlayer ∧
        (playCard s player card).1.scores = s.scores ∧
        (playCard s player card).1.deck = s.deck) ∧
      (∀ w, r.winner = some w →
        (playCard s player card).1.scores =
          addScore s.scores (teamOfPlayer w) (r.points + s.tiePoints) ∧
        (playCard s player card).1.tiePoints = 0 ∧
        (playCard s player card).1.leadPlayer = nextLead s.leadPlayer (some w) ∧
        (s.deck = [] →
          (playCard s player card).1.deck = [] ∧
          (playCard s player card).1.hands = s.hands.set player
            ((s.hands.getD player []).eraseIdx
              ((s.hands.getD player []).findIdx (fun c => cardMatches c card)))) ∧
        (s.deck ≠ [] → (playCard s player card).1 =
          drawAfterTrick { s with
            hands := s.hands.set player
              ((s.hands.getD player []).eraseIdx
                ((s.hands.getD player []).findIdx (fun c => cardMatches c card))),
            currentTrick := [],
            log := s.log ++ [⟨player, card, "play"⟩],
            scores := addScore s.scores (teamOfPlayer w)
              (r.points + s.tiePoints),
            tiePoints := 0,
            leadPlayer := nextLead s.leadPlayer (some w) } w)) := by
  have hnturn : ¬(player ≠ (s.leadPlayer + s.currentTrick.length) % 6) :=
    fun hne => hne hturn
  have hidx : (s.hands.getD player []).findIdx
      (fun c => cardMatches c card) < (s.hands.getD player []).length :=
    List.findIdx_lt_length_of_exists ⟨card, hcard, by simp [cardMatches]⟩
  have hnidx : ¬((s.hands.getD player []).findIdx
      (fun c => cardMatches c card) ≥ (s.hands.getD player []).length) := by
    omega
  have h6 : (s.currentTrick ++ [(⟨player, card⟩ : TrickPlay)]).length = 6 := by
    simp [hlen]
  have hne : s.currentTrick ++ [(⟨player, card⟩ : TrickPlay)] ≠ [] := by simp
  obtain ⟨r, hres⟩ : ∃ r,
      resolveTrick (s.currentTrick ++ [⟨player, card⟩]) s.trump = some r := by
    cases hx : resolveTrick (s.currentTrick ++ [⟨player, card⟩]) s.trump with
    | none => exact absurd ((resolveTrick_none_iff _ _).mp hx) hne
    | some rr => exact ⟨rr, rfl⟩
  have hpc : playCard s player card =
      (applyTrickResult
        { s with
          hands := s.hands.set player
            ((s.hands.getD player []).eraseIdx
              ((s.hands.getD player []).findIdx (fun c => cardMatches c card))),
          currentTrick := [],
          log := s.log ++ [⟨player, card, "play"⟩] }
        (resolveTrick (s.currentTrick ++ [⟨player, card⟩]) s.trump), none) := by
    simp only [playCard]
    rw [if_neg hnturn, if_neg hnidx, if_pos h6]
  rcases resolveTrick_shape _ _ _ hres with ⟨ht, hw⟩ | ⟨ht, w0, hw⟩
  · -- tie branch
    have he : playCard s player card =
        ({ s with
          hands := s.hands.set player
            ((s.hands.getD player []).eraseIdx
              ((s.hands.getD player []).findIdx (fun c => cardMatches c card))),
          currentTrick := [],
          log := s.log ++ [⟨player, card, "play"⟩],
          tiePoints := s.tiePoints + r.points }, none) := by
      rw [hpc, hres]
      simp [applyTrickResult, ht]
    refine ⟨r, hres, by simp [he], by simp [he], ?_, ?_⟩
    · intro _
      refine ⟨by simp [he], by simp [he], by simp [he], by simp [he]⟩
    · intro w hww
      rw [hw] at hww
      exact Option.noConfusion hww
  · -- clear-winner branch
    by_cases hdeck : s.deck = []
    · have hlen0 : ¬(s.deck.length > 0) := by simp [hdeck]
      have he : playCard s player card =
          ({ s with
            hands := s.hands.set player
              ((s.hands.getD player []).eraseIdx
                ((s.hands.getD player []).findIdx (fun c => cardMatches c card))),
            currentTrick := [],
            log := s.log ++ [⟨player, card, "play"⟩],
            scores := addScore s.scores (teamOfPlayer w0)
              (r.points + s.tiePoints),
            tiePoints := 0,
            leadPlayer := nextLead s.leadPlayer (some w0) }, none) := by
        rw [hpc, hres]
        simp [applyTrickResult, ht, hw, hlen0]
      refine ⟨r, hres, by simp [he], by simp [he], ?_, ?_⟩
      · intro htt
        rw [ht] at htt
        exact Bool.noConfusion htt
      · intro w hww
        rw [hw] at hww
        injection hww with hww2
        subst hww2
        refine ⟨by simp [he], by simp [he], by simp [he], ?_, fun hx => absurd hdeck hx⟩
        intro _
        refine ⟨by simp [he, hdeck], by simp [he]⟩
    · have hlen0 : 0 < s.deck.length := List.length_pos.mpr hdeck
      have he : playCard s player card =
          (drawAfterTrick { s with
            hands := s.hands.set player
              ((s.hands.getD player []).eraseIdx
                ((s.hands.getD player []).findIdx (fun c => cardMatches c card))),
            currentTrick := [],
            log := s.log ++ [⟨player, card, "play"⟩],
            scores := addScore s.scores (teamOfPlayer w0)
              (r.points + s.tiePoints),
            tiePoints := 0,
            leadPlayer := nextLead s.leadPlayer (some w0) } w0, none) := by
        rw [hpc, hres]
        simp [applyTrickResult, ht, hw, hlen0]
      refine ⟨r, hres, by simp [he], by simp [he, drawAfterTrick], ?_, ?_⟩
      · intro htt
        rw [ht] at htt
        exact Bool.noConfusion htt
      · intro w hww
        rw [hw] at hww
        injection hww with hww2
        subst hww2
        refine ⟨by simp [he, drawAfterTrick], by simp [he, drawAfterTrick],
          by simp [he, drawAfterTrick], fun hx => absurd hx hdeck, ?_⟩
        intro _
        rw [he]

theorem cardWeightSpec_eq (trump : Suit) (lead p : TrickPlay) :
    cardWeightSpec trump lead p =
      cardWeight p.card trump (some lead.card.suit) := by
  unfold cardWeightSpec cardWeight
  by_cases h1 : p.card.suit = trump
  · simp [h1]
  · by_cases h2 : p.card.suit = lead.card.suit
    · simp [h1, h2]
    · simp [h1, h2, Ne.symm h2]

theorem natMax_zero_left (x : Nat) : Nat.max 0 x = x :=
  Nat.max_eq_right (Nat.zero_le x)

theorem natMax_assoc (a b c : Nat) :
    Nat.max (Nat.max a b) c = Nat.max a (Nat.max b c) :=
  Nat.max_assoc a b c

theorem natMax_left {a b : Nat} (h : b ≤ a) : Nat.max a b = a :=
  Nat.max_eq_left h

theorem natMax_right {a b : Nat} (h : a ≤ b) : Nat.max a b = b :=
  Nat.max_eq_right h

theorem le_natMax_left (a b : Nat) : a ≤ Nat.max a b :=
  Nat.le_max_left a b

theorem le_natMax_right (a b : Nat) : b ≤ Nat.max a b :=
  Nat.le_max_right a b

theorem foldl_max_shift (l : List Nat) :
    ∀ a : Nat, l.foldl Nat.max a = Nat.max a (l.foldl Nat.max 0) := by
  induction l with
  | nil =>
    intro a
    simp only [List.foldl_nil]
    rw [natMax_left (Nat.zero_le a)]
  | cons x t ih =>
    intro a
    simp only [List.foldl_cons]
    rw [ih (Nat.max a x), ih (Nat.max 0 x), natMax_zero_left, natMax_assoc]

theorem foldl_max_mem (l : List Nat) (h : l ≠ []) :
    l.foldl Nat.max 0 ∈ l := by
  induction l with
  | nil => exact absurd rfl h
  | cons x t ih =>
    simp only [List.foldl_cons]
    rw [natMax_zero_left, foldl_max_shift]
    rcases Nat.le_total (t.foldl Nat.max 0) x with hle | hle
    · rw [natMax_left hle]
      exact List.mem_cons_self x t
    · rw [natMax_right hle]
      cases t with
      | nil =>
        simp only [List.foldl_nil]
        have hx : x = 0 := by
          simp only [List.foldl_nil] at hle
          omega
        simp [hx]
      | cons y tt => exact List.mem_cons_of_mem x (ih (by simp))

theorem foldl_max_le (l : List Nat) (x : Nat) (h : x ∈ l) :
    x ≤ l.foldl Nat.max 0 := by
  induction l with
  | nil => simp at h
  | cons a t ih =>
    simp only [List.foldl_cons]
    rw [natMax_zero_left, foldl_max_shift]
    rcases List.mem_cons.mp h with rfl | hmem
    · exact le_natMax_left _ _
    · exact le_trans (ih hmem) (le_natMax_right _ _)

theorem eq_singleton_of_mem_all (l : List Nat) (a : Nat) (hnd : l.Nodup)
    (hmem : a ∈ l) (hall : ∀ x ∈ l, x = a) : l = [a] := by
  cases l with
  | nil => simp at hmem
  | cons b t =>
    have hb : b = a := hall b (List.mem_cons_self b t)
    subst hb
    cases t with
    | nil => rfl
    | cons c tt =>
      have hc : c = b := hall c (by simp)
      subst hc
      simp at hnd

theorem one_lt_length_of_two_mem (l : List Nat) (a b : Nat) (hab : a ≠ b)
    (ha : a ∈ l) (hb : b ∈ l) : 1 < l.length := by
  cases l with
  | nil => simp at ha
  | cons x t =>
    cases t with
    | nil =>
      simp at ha hb
      exact absurd (ha.trans hb.symm) hab
    | cons y tt => simp only [List.length_cons]; omega

/-- C4: `resolveTrick` fails exactly on an empty plays list; otherwise
its points field is the sum of the point-table values of all played
cards regardless of tie status and, weighting each play as the claim
describes (200 + rank strength on trump, 100 + rank strength on the led
suit, rank strength otherwise), it returns the unique maximal play's
player with `tie = false` when exactly one play attains the maximum
weight, and `winner = none` with `tie = true` when two distinct plays
attain it. -/
theorem resolveTrick_correct (plays : List TrickPlay) (trump : Suit) :
    (resolveTrick plays trump = none ↔ plays = []) ∧
    (∀ lead rest r, plays = lead :: rest →
      resolveTrick plays trump = some r →
      r.points = (plays.map (fun p => POINTS p.card.rank)).sum ∧
      ∀ W : Nat,
        (∃ i : Fin plays.length, cardWeightSpec trump lead (plays.get i) = W) →
        (∀ i : Fin plays.length, cardWeightSpec trump lead (plays.get i) ≤ W) →
        ((∃! i : Fin plays.length,
            cardWeightSpec trump lead (plays.get i) = W) →
          r.tie = false ∧
          ∀ i : Fin plays.length,
            cardWeightSpec trump lead (plays.get i) = W →
            r.winner = some (plays.get i).player) ∧
        (∀ i j : Fin plays.length, i ≠ j →
          cardWeightSpec trump lead (plays.get i) = W →
          cardWeightSpec trump lead (plays.get j) = W →
          r.winner = none ∧ r.tie = true)) := by
  refine ⟨resolveTrick_none_iff plays trump, ?_⟩
  intro lead rest r hp hres
  subst hp
  refine ⟨?_, ?_⟩
  · have h := resolveTrick_points _ _ _ hres
    rw [h]
    rfl
  intro W hex hub
  rw [resolveTrick] at hres
  set weights := (lead :: rest).map
    (fun p => cardWeight p.card trump (some lead.card.suit)) with hwdef
  set maxW := weights.foldl Nat.max 0 with hmdef
  set indices := (List.range (lead :: rest).length).filter
    (fun i => weights.getD i 0 == maxW) with hidef
  have hwlen : weights.length = (lead :: rest).length := by
    rw [hwdef]
    simp
  have hwgetD : ∀ i : Fin (lead :: rest).length,
      weights.getD i.1 0 = cardWeightSpec trump lead ((lead :: rest).get i) := by
    intro i
    have hlt : i.1 < weights.length := by rw [hwlen]; exact i.isLt
    rw [getD_lt_length_eq_getElem weights i.1 0 hlt]
    simp only [hwdef, List.getElem_map]
    rw [cardWeightSpec_eq]
    rfl
  have hWne : weights ≠ [] := by
    rw [hwdef]
    simp
  have hmax_mem : maxW ∈ weights := by
    rw [hmdef]
    exact foldl_max_mem weights hWne
  have hW_mem : W ∈ weights := by
    obtain ⟨i, hi⟩ := hex
    have hlt : i.1 < weights.length := by rw [hwlen]; exact i.isLt
    have hmem : weights.getD i.1 0 ∈ weights := by
      rw [getD_lt_length_eq_getElem weights i.1 0 hlt]
      exact List.getElem_mem hlt
    rw [hwgetD i, hi] at hmem
    exact hmem
  have hmax_le_W : maxW ≤ W := by
    obtain ⟨j, hj⟩ := List.mem_iff_get.mp hmax_mem
    have hj2 : j.1 < (lead :: rest).length := by rw [← hwlen]; exact j.isLt
    have : weights.getD j.1 0 = maxW := by
      rw [getD_lt_length_eq_getElem weights j.1 0 j.isLt]
      rw [← hj]
      rfl
    rw [hwgetD ⟨j.1, hj2⟩] at this
    rw [← this]
    exact hub ⟨j.1, hj2⟩
  have hW_le_max : W ≤ maxW := by
    rw [hmdef]
    exact foldl_max_le weights W hW_mem
  have hWmax : maxW = W := le_antisymm hmax_le_W hW_le_max
  have hmem_indices : ∀ x, x ∈ indices ↔
      x < (lead :: rest).length ∧ weights.getD x 0 = maxW := by
    intro x
    rw [hidef]
    simp [List.mem_filter, List.mem_range]
  have hnodup : indices.Nodup := by
    rw [hidef]
    exact (List.nodup_range _).filter _
  constructor
  · rintro ⟨i0, hi0, hun⟩
    have hi0w : weights.getD i0.1 0 = maxW := by
      rw [hwgetD i0, hi0, hWmax]
    have hi0mem : i0.1 ∈ indices := (hmem_indices i0.1).mpr ⟨i0.isLt, hi0w⟩
    have hall : ∀ x ∈ indices, x = i0.1 := by
      intro x hx
      obtain ⟨hlt, hxw⟩ := (hmem_indices x).mp hx
      have hspec : cardWeightSpec trump lead ((lead :: rest).get ⟨x, hlt⟩) = W := by
        rw [← hwgetD ⟨x, hlt⟩, hxw, hWmax]
      have := hun ⟨x, hlt⟩ hspec
      exact congrArg Fin.val this
    have hsing : indices = [i0.1] :=
      eq_singleton_of_mem_all indices i0.1 hnodup hi0mem hall
    have hcond : ¬(indices.length > 1) := by
      rw [hsing]
      simp
    rw [if_neg hcond] at hres
    injection hres with hr
    rw [← hr]
    refine ⟨rfl, ?_⟩
    intro i hiW
    have hii : i = i0 := hun i hiW
    subst hii
    show some (((lead :: rest).getD (indices.headD 0) lead).player) =
      some ((lead :: rest).get i).player
    rw [hsing]
    simp only [List.headD_cons]
    rw [getD_lt_length_eq_getElem _ _ _ i.isLt]
    rfl
  · intro i j hij hiW hjW
    have hiw : weights.getD i.1 0 = maxW := by rw [hwgetD i, hiW, hWmax]
    have hjw : weights.getD j.1 0 = maxW := by rw [hwgetD j, hjW, hWmax]
    have himem : i.1 ∈ indices := (hmem_indices i.1).mpr ⟨i.isLt, hiw⟩
    have hjmem : j.1 ∈ indices := (hmem_indices j.1).mpr ⟨j.isLt, hjw⟩
    have hij2 : i.1 ≠ j.1 := fun h => hij (Fin.ext h)
    have hlen2 : 1 < indices.length :=
      one_lt_length_of_two_mem indices i.1 j.1 hij2 himem hjmem
    rw [if_pos hlen2] at hres
    injection hres with hr
    rw [← hr]
    exact ⟨rfl, rfl⟩

/-- C4 (witness): the correctness theorem applied to the concrete
no-trump hearts trick of the repository's first test: the ace of
hearts (player 2) is the unique maximum at weight 108, so the trick
resolves to winner 2, no tie, 25 points. -/
theorem resolveTrick_correct_witness :
    resolveTrick
      [⟨0, ⟨.hearts, .r6⟩⟩, ⟨1, ⟨.hearts, .r5⟩⟩, ⟨2, ⟨.hearts, .A⟩⟩,
       ⟨3, ⟨.hearts, .r3⟩⟩, ⟨4, ⟨.hearts, .K⟩⟩, ⟨5, ⟨.hearts, .r7⟩⟩]
      Suit.spades = some ⟨some 2, 25, false⟩ ∧
    (⟨some 2, 25, false⟩ : TrickResult).tie = false ∧
    (⟨some 2, 25, false⟩ : TrickResult).winner = some 2 := by
  have h := (resolveTrick_correct
      [⟨0, ⟨.hearts, .r6⟩⟩, ⟨1, ⟨.hearts, .r5⟩⟩, ⟨2, ⟨.hearts, .A⟩⟩,
       ⟨3, ⟨.hearts, .r3⟩⟩, ⟨4, ⟨.hearts, .K⟩⟩, ⟨5, ⟨.hearts, .r7⟩⟩]
      Suit.spades).2
    ⟨0, ⟨.hearts, .r6⟩⟩
    [⟨1, ⟨.hearts, .r5⟩⟩, ⟨2, ⟨.hearts, .A⟩⟩, ⟨3, ⟨.hearts, .r3⟩⟩,
     ⟨4, ⟨.hearts, .K⟩⟩, ⟨5, ⟨.hearts, .r7⟩⟩]
    ⟨some 2, 25, false⟩ rfl (by decide)
  have h108 := h.2 108 ⟨⟨2, by decide⟩, by decide⟩ (by decide)
  have huni := h108.1 ⟨⟨2, by decide⟩, by decide, by decide⟩
  refine ⟨by decide, huni.1, ?_⟩
  have hw := huni.2 ⟨2, by decide⟩ (by decide)
  exact hw.trans rfl

/-- `dealStep` on a non-empty pile, in equation form. -/
theorem dealStep_cons (hands : List (List Card)) (c : Card)
    (rest : List Card) (p : Nat) :
    dealStep (hands, c :: rest) p =
      (hands.set p (hands.getD p [] ++ [c]), rest) := rfl

set_option maxHeartbeats 1000000 in
/-- The closed form of `initMatch` for an arbitrary 36-card shuffled
deck, established once over an opaque deck to keep all later reasoning
cheap. -/
theorem initMatch_deal_core (seed : List Nat) (d0 : List Card)
    (hd0 : createShuffledDeck (stringToSeed seed) = d0)
    (h36 : d0.length = 36) (dflt : Card) :
    (initMatch seed).hands =
      [[d0.getD 0 dflt, d0.getD 6 dflt, d0.getD 12 dflt],
       [d0.getD 1 dflt, d0.getD 7 dflt, d0.getD 13 dflt],
       [d0.getD 2 dflt, d0.getD 8 dflt, d0.getD 14 dflt],
       [d0.getD 3 dflt, d0.getD 9 dflt, d0.getD 15 dflt],
       [d0.getD 4 dflt, d0.getD 10 dflt, d0.getD 16 dflt],
       [d0.getD 5 dflt, d0.getD 11 dflt, d0.getD 17 dflt]] ∧
    (initMatch seed).trumpCard = d0.getD 18 dflt ∧
    (initMatch seed).trump = (d0.getD 18 dflt).suit ∧
    (initMatch seed).deck = d0.drop 19 ++ [d0.getD 18 dflt] ∧
    (initMatch seed).leadPlayer = 0 ∧
    (initMatch seed).scores = (0, 0) ∧
    (initMatch seed).tiePoints = 0 ∧
    (initMatch seed).log = [] := by
  rcases d0 with _ | ⟨c0, d0⟩
  · simp at h36
  rcases d0 with _ | ⟨c1, d0⟩
  · simp at h36
  rcases d0 with _ | ⟨c2, d0⟩
  · simp at h36
  rcases d0 with _ | ⟨c3, d0⟩
  · simp at h36
  rcases d0 with _ | ⟨c4, d0⟩
  · simp at h36
  rcases d0 with _ | ⟨c5, d0⟩
  · simp at h36
  rcases d0 with _ | ⟨c6, d0⟩
  · simp at h36
  rcases d0 with _ | ⟨c7, d0⟩
  · simp at h36
  rcases d0 with _ | ⟨c8, d0⟩
  · simp at h36
  rcases d0 with _ | ⟨c9, d0⟩
  · simp at h36
  rcases d0 with _ | ⟨c10, d0⟩
  · simp at h36
  rcases d0 with _ | ⟨c11, d0⟩
  · simp at h36
  rcases d0 with _ | ⟨c12, d0⟩
  · simp at h36
  rcases d0 with _ | ⟨c13, d0⟩
  · simp at h36
  rcases d0 with _ | ⟨c14, d0⟩
  · simp at h36
  rcases d0 with _ | ⟨c15, d0⟩
  · simp at h36
  rcases d0 with _ | ⟨c16, d0⟩
  · simp at h36
  rcases d0 with _ | ⟨c17, d0⟩
  · simp at h36
  rcases d0 with _ | ⟨c18, d0⟩
  · simp at h36
  have hrep : List.replicate 6 ([] : List Card) = [[], [], [], [], [], []] := rfl
  have hr3 : List.range 3 = [0, 1, 2] := rfl
  have hr6 : List.range 6 = [0, 1, 2, 3, 4, 5] := rfl
  have hF : (List.range 3).foldl
      (fun acc _ => (List.range 6).foldl dealStep acc)
      (List.replicate 6 ([] : List Card), c0 :: c1 :: c2 :: c3 :: c4 :: c5 :: c6 :: c7 :: c8 :: c9 :: c10 :: c11 :: c12 :: c13 :: c14 :: c15 :: c16 :: c17 :: c18 :: d0) =
      ([[c0, c6, c12], [c1, c7, c13], [c2, c8, c14], [c3, c9, c15],
        [c4, c10, c16], [c5, c11, c17]], c18 :: d0) := by
    simp only [hrep, hr3, hr6, List.foldl_cons, List.foldl_nil,
      dealStep_cons, List.getD_cons_zero, List.getD_cons_succ,
      List.set_cons_zero, List.set_cons_succ, List.nil_append,
      List.cons_append, List.append_nil]
  have hgoal : initMatch seed =
      { seed := seed, deck := d0 ++ [c18], trump := c18.suit,
        leadPlayer := 0,
        hands := [[c0, c6, c12], [c1, c7, c13], [c2, c8, c14],
                  [c3, c9, c15], [c4, c10, c16], [c5, c11, c17]],
        scores := (0, 0), tiePoints := 0,
        punishment := PunishmentQueue.init, log := [],
        trumpCard := c18, currentTrick := [] } := by
    simp only [initMatch]
    rw [hd0, hF]
    rfl
  refine ⟨?_, ?_, ?_, ?_, ?_, ?_, ?_, ?_⟩
  all_goals rw [hgoal]
  all_goals rfl

/-- C7: for every seed, `initMatch` deals three cards to each of the 6
players player-major off the front of the shuffled deck (player `p`
receives cards `p`, `p + 6` and `p + 12`), takes the 19th card as the
trump reveal (its suit becomes trump), moves that card to the bottom of
the draw pile so it is drawn last, and starts with lead 0, zero scores,
zero tie points and an empty log. -/
theorem initMatch_structure (seed : List Nat) (dflt : Card) :
    (initMatch seed).hands =
      [[(createShuffledDeck (stringToSeed seed)).getD 0 dflt,
        (createShuffledDeck (stringToSeed seed)).getD 6 dflt,
        (createShuffledDeck (stringToSeed seed)).getD 12 dflt],
       [(createShuffledDeck (stringToSeed seed)).getD 1 dflt,
        (createShuffledDeck (stringToSeed seed)).getD 7 dflt,
        (createShuffledDeck (stringToSeed seed)).getD 13 dflt],
       [(createShuffledDeck (stringToSeed seed)).getD 2 dflt,
        (createShuffledDeck (stringToSeed seed)).getD 8 dflt,
        (createShuffledDeck (stringToSeed seed)).getD 14 dflt],
       [(createShuffledDeck (stringToSeed seed)).getD 3 dflt,
        (createShuffledDeck (stringToSeed seed)).getD 9 dflt,
        (createShuffledDeck (stringToSeed seed)).getD 15 dflt],
       [(createShuffledDeck (stringToSeed seed)).getD 4 dflt,
        (createShuffledDeck (stringToSeed seed)).getD 10 dflt,
        (createShuffledDeck (stringToSeed seed)).getD 16 dflt],
       [(createShuffledDeck (stringToSeed seed)).getD 5 dflt,
        (createShuffledDeck (stringToSeed seed)).getD 11 dflt,
        (createShuffledDeck (stringToSeed seed)).getD 17 dflt]] ∧
    (initMatch seed).trumpCard =
      (createShuffledDeck (stringToSeed seed)).getD 18 dflt ∧
    (initMatch seed).trump =
      ((createShuffledDeck (stringToSeed seed)).getD 18 dflt).suit ∧
    (initMatch seed).deck =
      (createShuffledDeck (stringToSeed seed)).drop 19 ++
        [(createShuffledDeck (stringToSeed seed)).getD 18 dflt] ∧
    (initMatch seed).leadPlayer = 0 ∧
    (initMatch seed).scores = (0, 0) ∧
    (initMatch seed).tiePoints = 0 ∧
    (initMatch seed).log = [] :=
  initMatch_deal_core seed (createShuffledDeck (stringToSeed seed)) rfl
    (createShuffledDeck_length _) dflt

/-- C5 (witness): on a concrete state whose trick already holds five
plays, the sixth legal play succeeds and empties the current trick. -/
theorem playCard_completes_trick_witness :
    fiveTrickState.currentTrick.length = 5 ∧
    (playCard fiveTrickState 5 ⟨.hearts, .r7⟩).2 = none ∧
    (playCard fiveTrickState 5 ⟨.hearts, .r7⟩).1.currentTrick = [] := by
  have h := playCard_completes_trick fiveTrickState 5 ⟨.hearts, .r7⟩
    (by decide) (by decide) (by decide)
  obtain ⟨r, hres, h2, h3, htie, hwin⟩ := h
  exact ⟨by decide, h2, h3⟩
